import Mathlib

/-!
Shallow embedding of the EMB micro-benchmarking harness (emb.hpp) and proofs
about its measurement engine: the registry and runner, the per-run measurement
State with the Welford statistics update, the range-for iteration protocol with
its scoped iteration timer, and the reporting step.

Modelling conventions:
- `size_t` values are modelled as `Nat`; the one place where unsigned
  wraparound matters, the expression `iterations_ - 1` inside
  `State::report`, is modelled exactly as arithmetic modulo `2 ^ 64`
  (`sizeSub1` below).
- The Accumulator capability (operator+, operator-, division by a count,
  the resolution of `detail::multiply` and of `detail::sqrt` plus the
  final `Accumulator(...)` conversion, construction from a raw duration,
  and `Accumulator{0}`) is a record of operations `AccOps`.  Instantiating
  it with the native field operations gives the plain-scalar path; the
  `Dur` wrapper instantiation gives the `.count()`-based path for
  chrono-like duration types.
- `Timer::now()` is modelled as a map from the index of the call to a time
  point; subtracting two time points yields a duration.
- A benchmarked function (`EvaluatorFunction`, `void (*)(State&)`) is
  modelled by its effect on the state, a map `State α → State α`.
-/

namespace EMB

/-- The Accumulator capability of emb.hpp.  `τ` is the duration type obtained
by subtracting two `Timer` time points and `α` is the Accumulator type.
Fields, in the order they are used by the source: `ofDur` is the
`Accumulator(duration)` conversion at the top of `State::update`; `add`,
`sub`, `divNat` are the native operator+=, operator- and division by a
`size_t` count required of every Accumulator; `mul` is the resolution of
`detail::multiply` (native operator* for scalars, `.count()` based for
chrono-like wrappers); `sqrt` is the resolution of `detail::sqrt` composed
with the final `Accumulator(...)` conversion done in `State::report`;
`zero` is the `Accumulator {0}` member initializer. -/
structure AccOps (τ : Type) (α : Type) where
  ofDur : τ → α
  add : α → α → α
  sub : α → α → α
  divNat : α → Nat → α
  mul : α → α → α
  sqrt : α → α
  zero : α

/-- `Benchmarker<Timer, Accumulator>::State`: field for field the C++ class.
`iterations` is `iterations_` (const, set at construction), `iteration` is
`iteration_` (starts at 0), `mean` is `mean_` and `squared_differences` is
`squared_differences_` (both start at `Accumulator {0}`). -/
structure State (α : Type) where
  iterations : Nat
  iteration : Nat
  mean : α
  squared_differences : α

/-- The private constructor `State(size_t iterations)` together with the
member initializers of the class. -/
def State.mk0 (ops : AccOps τ α) (iterations : Nat) : State α :=
  { iterations := iterations, iteration := 0, mean := ops.zero,
    squared_differences := ops.zero }

/-- `State::update(const duration& d)`: the Welford step exactly as written
in the source.  `iteration_++`, then `value = Accumulator(d)`,
`delta = value - mean_`, `mean_ += delta / iteration_`,
`delta2 = value - mean_` (with the new mean), and
`squared_differences_ += detail::multiply(delta, delta2)`. -/
def State.update (st : State α) (ops : AccOps τ α) (d : τ) : State α :=
  let iteration := st.iteration + 1
  let value := ops.ofDur d
  let delta := ops.sub value st.mean
  let mean := ops.add st.mean (ops.divNat delta iteration)
  let delta2 := ops.sub value mean
  { st with
    iteration := iteration
    mean := mean
    squared_differences := ops.add st.squared_differences (ops.mul delta delta2) }

/-- `State::done()`: `iteration_ >= iterations_`. -/
def State.done (st : State α) : Bool :=
  decide (st.iteration ≥ st.iterations)

/-- The value of the C++ `size_t` expression `iterations_ - 1` appearing in
`State::report`: unsigned subtraction wraps modulo `2 ^ 64`. -/
def sizeSub1 (n : Nat) : Nat :=
  (n + (2 ^ 64 - 1)) % 2 ^ 64

/-- One invocation of `Reporter::report(name, iterations, mean, sd)`:
the four arguments the Reporter capability receives. -/
structure Report (α : Type) where
  name : String
  iterations : Nat
  mean : α
  stddev : α

/-- `State::report<Reporter>(const char* name)`: calls
`Reporter::report(name, iterations_, mean_,
Accumulator(detail::sqrt(squared_differences_ / (iterations_ - 1))))`.
The composition of `detail::sqrt` with the outer `Accumulator(...)`
conversion is the `sqrt` field of `AccOps`; the divisor is the wrapped
`size_t` value of `iterations_ - 1`. -/
def State.report (st : State α) (ops : AccOps τ α) (name : String) : Report α :=
  { name := name, iterations := st.iterations, mean := st.mean,
    stddev := ops.sqrt (ops.divNat st.squared_differences (sizeSub1 st.iterations)) }

/-- One benchmarked iteration of the range-for loop over a `State` plus the
advance of the cursor, starting at time-point index `k`:
the loop variable is the `IterationTimer` obtained by dereferencing the
active cursor, whose constructor stores `start = Timer::now()` (reading
index `k`); at the closing brace of the iteration its destructor reads
`now = Timer::now()` (index `k + 1`) and calls `state.update(now - start)`;
then `operator++` runs: if `state->done()` the cursor becomes the null
sentinel, so the next `operator!=` comparison against `end()` stops the
loop, otherwise the cursor stays active and the loop repeats.  The returned
`Nat` is the total number of `Timer::now()` calls made. -/
def loopFrom [Sub τ] (ops : AccOps τ α) (clock : Nat → τ) (st : State α) (k : Nat) :
    State α × Nat :=
  if h : (st.update ops (clock (k + 1) - clock k)).done
  then (st.update ops (clock (k + 1) - clock k), k + 2)
  else loopFrom ops clock (st.update ops (clock (k + 1) - clock k)) (k + 2)
termination_by st.iterations - st.iteration
decreasing_by
  simp only [State.update, State.done, ge_iff_le, decide_eq_true_eq] at *
  omega

/-- The whole range-for loop `for (auto timer : state) body`, desugared:
`__begin = state.begin()` holds a non-null pointer to the state and
`__end = state.end()` holds the null sentinel, so the first comparison
`__begin != __end` is true whatever the value of `iterations_`, and the
body runs; the rest of the loop is `loopFrom`. -/
def runLoop [Sub τ] (ops : AccOps τ α) (clock : Nat → τ) (st : State α) :
    State α × Nat :=
  loopFrom ops clock st 0

/-- The per-guard elapsed durations seen by `m` consecutive iterations of the
loop, with `k` time-point reads already consumed: the first guard stores
`start = clock k` at construction and computes `clock (k + 1) - start` at
destruction, and the remaining guards continue from read index `k + 2`. -/
def elapsedList [Sub τ] (clock : Nat → τ) : Nat → Nat → List τ
  | _, 0 => []
  | k, m + 1 => (clock (k + 1) - clock k) :: elapsedList clock (k + 2) m

/-- The internal `Benchmarker::Evaluator` entry: display name, benchmarked
function and number of iterations. -/
structure Evaluator (α : Type) where
  name : String
  function : State α → State α
  iterations : Nat

/-- The `Benchmarker` class: the stored default iteration count and the
`evaluators` vector. -/
structure Benchmarker (α : Type) where
  default_iterations : Nat
  evaluators : List (Evaluator α)

/-- The `Benchmarker(size_t default_iterations)` constructor with an
explicit argument. -/
def Benchmarker.new (α : Type) (default_iterations : Nat) : Benchmarker α :=
  { default_iterations := default_iterations, evaluators := [] }

/-- The `Benchmarker()` constructor call with the argument omitted: the
declaration supplies the default argument 1000. -/
def Benchmarker.newDefault (α : Type) : Benchmarker α :=
  Benchmarker.new α 1000

/-- `registerBenchmark(const char* name, EvaluatorFunction e, size_t iterations)`:
`evaluators.push_back({name, e, iterations})`. -/
def Benchmarker.registerBenchmark (b : Benchmarker α) (name : String)
    (e : State α → State α) (iterations : Nat) : Benchmarker α :=
  { b with evaluators := b.evaluators ++ [{ name := name, function := e, iterations := iterations }] }

/-- The two-argument overload of `registerBenchmark`:
`evaluators.push_back({name, e, default_iterations_})`. -/
def Benchmarker.registerBenchmarkDefault (b : Benchmarker α) (name : String)
    (e : State α → State α) : Benchmarker α :=
  { b with evaluators := b.evaluators ++ [{ name := name, function := e, iterations := b.default_iterations }] }

/-- `runBenchmarks<Reporter>()`: for each entry, in vector order, construct
`State s(e.iterations)`, run `e.function(s)`, then `s.report<Reporter>(e.name)`.
The returned list holds the Reporter invocations in the order they are
made. -/
def Benchmarker.runBenchmarks (b : Benchmarker α) (ops : AccOps τ α) : List (Report α) :=
  b.evaluators.map (fun e => State.report (e.function (State.mk0 ops e.iterations)) ops e.name)

/-- One registration call, choosing between the two `registerBenchmark`
overloads: a request carries a name, a function and optionally an explicit
iteration count. -/
def registerRequest (b : Benchmarker α) (r : String × (State α → State α) × Option Nat) :
    Benchmarker α :=
  match r.2.2 with
  | some k => b.registerBenchmark r.1 r.2.1 k
  | none => b.registerBenchmarkDefault r.1 r.2.1

/-- The plain-scalar Accumulator path over a field: every operation is the
native one (`detail::multiply` resolves to operator*, `detail::sqrt` to the
given square-root map `sq`), the duration and the Accumulator coincide, and
division by a `size_t` count divides by the cast of the count. -/
def fieldAcc (α : Type) [Field α] (sq : α → α) : AccOps α α :=
  { ofDur := id, add := fun a b => a + b, sub := fun a b => a - b,
    divNat := fun a n => a / (n : α), mul := fun a b => a * b,
    sqrt := sq, zero := 0 }

/-- A chrono-like duration wrapper: a value exposing its underlying numeric
magnitude through `count`, as `std::chrono::duration` does. -/
structure Dur where
  count : ℚ

/-- The duration-wrapper Accumulator path: operator+, operator-, division by
a count and construction from a raw duration act on the wrapped magnitude
as the chrono duration operators do; `detail::multiply` resolves to the
`.count()` overload `Accumulator(a1.count() * a2.count())`; `detail::sqrt`
resolves to `sqrt(a.count())` and the outer `Accumulator(...)` conversion
wraps the result again. -/
def durAcc (sq : ℚ → ℚ) : AccOps ℚ Dur :=
  { ofDur := fun d => { count := d },
    add := fun a b => { count := a.count + b.count },
    sub := fun a b => { count := a.count - b.count },
    divNat := fun a n => { count := a.count / (n : ℚ) },
    mul := fun a b => { count := a.count * b.count },
    sqrt := fun a => { count := sq a.count },
    zero := { count := 0 } }

/-- Magnitude view of a wrapper-valued state: every Accumulator field
replaced by its underlying magnitude. -/
def durToRat (st : State Dur) : State ℚ :=
  { iterations := st.iterations, iteration := st.iteration,
    mean := st.mean.count, squared_differences := st.squared_differences.count }

/-- Modelled from the spec: the Welford step exactly as the specification
pseudocode writes it (section 4.2): `n ← n + 1`, `delta ← v − mean`,
`mean ← mean + delta / n`, `delta2 ← v − mean`, `M2 ← M2 + delta · delta2`,
over a numeric field. -/
def welfordStep [Field α] (st : State α) (v : α) : State α :=
  let n := st.iteration + 1
  let delta := v - st.mean
  let mean := st.mean + delta / (n : α)
  let delta2 := v - mean
  { st with
    iteration := n
    mean := mean
    squared_differences := st.squared_differences + delta * delta2 }

/-- A benchmarked function only interacts with the state through the
iteration protocol and `iterations_` is a const member, so it never changes
the target iteration count of the state it is handed. -/
def PreservesIterations (f : State α → State α) : Prop :=
  ∀ st : State α, (f st).iterations = st.iterations

/-- Folding the statistics update over a list of durations, the shape every
run of the iteration protocol reduces to. -/
def foldUpdate (ops : AccOps τ α) (st : State α) (vs : List τ) : State α :=
  List.foldl (fun s d => s.update ops d) st vs

lemma State.update_iteration (st : State α) (ops : AccOps τ α) (d : τ) :
    (st.update ops d).iteration = st.iteration + 1 := rfl

lemma State.update_iterations (st : State α) (ops : AccOps τ α) (d : τ) :
    (st.update ops d).iterations = st.iterations := rfl

lemma State.done_iff (st : State α) : st.done = true ↔ st.iterations ≤ st.iteration := by
  simp [State.done]

lemma elapsedList_length [Sub τ] (clock : Nat → τ) :
    ∀ (m k : Nat), (elapsedList clock k m).length = m := by
  intro m
  induction m with
  | zero => intro k; rfl
  | succ m IH => intro k; simp [elapsedList, IH]

lemma foldUpdate_nil (ops : AccOps τ α) (st : State α) : foldUpdate ops st [] = st := rfl

lemma foldUpdate_cons (ops : AccOps τ α) (st : State α) (d : τ) (vs : List τ) :
    foldUpdate ops st (d :: vs) = foldUpdate ops (st.update ops d) vs := rfl

lemma foldUpdate_append (ops : AccOps τ α) (st : State α) (vs ws : List τ) :
    foldUpdate ops st (vs ++ ws) = foldUpdate ops (foldUpdate ops st vs) ws := by
  simp [foldUpdate]

lemma foldUpdate_iteration (ops : AccOps τ α) :
    ∀ (vs : List τ) (st : State α),
      (foldUpdate ops st vs).iteration = st.iteration + vs.length := by
  intro vs
  induction vs with
  | nil => intro st; simp [foldUpdate]
  | cons v vs IH =>
    intro st
    rw [foldUpdate_cons, IH, State.update_iteration]
    simp
    omega

lemma foldUpdate_iterations (ops : AccOps τ α) :
    ∀ (vs : List τ) (st : State α),
      (foldUpdate ops st vs).iterations = st.iterations := by
  intro vs
  induction vs with
  | nil => intro st; rfl
  | cons v vs IH =>
    intro st
    rw [foldUpdate_cons, IH, State.update_iterations]

/-- The trace of the compiled range-for loop, once its first (always true)
comparison against the sentinel has let the body run: starting from a state
whose remaining iteration budget is `r`, the loop executes its body exactly
`max r 1` times, each body feeding one elapsed duration into the statistics
update, and consumes two clock readings per body. -/
lemma loopFrom_trace [Sub τ] (ops : AccOps τ α) (clock : Nat → τ) (r : Nat) :
    ∀ (st : State α) (k : Nat), st.iterations - st.iteration = r →
      loopFrom ops clock st k
        = (foldUpdate ops st (elapsedList clock k (max r 1)), k + 2 * max r 1) := by
  induction r using Nat.strong_induction_on with
  | _ r IH =>
    intro st k hr
    rw [loopFrom]
    by_cases h : (st.update ops (clock (k + 1) - clock k)).done
    · have h1 : st.iterations ≤ st.iteration + 1 := by
        rw [State.done_iff, State.update_iteration, State.update_iterations] at h
        exact h
      have hmax : max r 1 = 1 := by omega
      rw [dif_pos h, hmax]
      simp [elapsedList, foldUpdate]
    · have h1 : ¬ st.iterations ≤ st.iteration + 1 := by
        rw [State.done_iff, State.update_iteration, State.update_iterations] at h
        exact h
      have hr2 : (st.update ops (clock (k + 1) - clock k)).iterations
          - (st.update ops (clock (k + 1) - clock k)).iteration = r - 1 := by
        rw [State.update_iteration, State.update_iterations]
        omega
      rw [dif_neg h, IH (r - 1) (by omega) _ (k + 2) hr2]
      have hmax : max r 1 = r := by omega
      have hmax2 : max (r - 1) 1 = r - 1 := by omega
      rw [hmax, hmax2]
      have hsplit : r = (r - 1) + 1 := by omega
      rw [hsplit, elapsedList, foldUpdate_cons]
      have harith : k + 2 * (r - 1 + 1) = k + 2 + 2 * (r - 1) := by omega
      rw [harith]
      simp

/-- The whole range-for loop from a freshly constructed state with target
`n`: the body runs `max n 1` times (once even when `n = 0`, because the
first sentinel comparison is unconditionally true), folding the statistics
update over the per-guard elapsed durations. -/
lemma runLoop_trace [Sub τ] (ops : AccOps τ α) (clock : Nat → τ) (n : Nat) :
    runLoop ops clock (State.mk0 ops n)
      = (foldUpdate ops (State.mk0 ops n) (elapsedList clock 0 (max n 1)), 2 * max n 1) := by
  have h := loopFrom_trace ops clock n (State.mk0 ops n) 0 (by simp [State.mk0])
  simpa [runLoop] using h

lemma update_fieldAcc_mean [Field α] (sq : α → α) (st : State α) (v : α) :
    (st.update (fieldAcc α sq) v).mean
      = st.mean + (v - st.mean) / ((st.iteration + 1 : Nat) : α) := rfl

lemma update_fieldAcc_m2 [Field α] (sq : α → α) (st : State α) (v : α) :
    (st.update (fieldAcc α sq) v).squared_differences
      = st.squared_differences
        + (v - st.mean) * (v - (st.mean + (v - st.mean) / ((st.iteration + 1 : Nat) : α))) := rfl

/-- The running invariant of the Welford loop over the plain-scalar
Accumulator: after any list of samples, the stored mean is the arithmetic
mean of the samples and the stored sum of squared differences equals the
sum of the squares minus the squared sum over the count. -/
lemma welford_invariant (α : Type) [Field α] [CharZero α] (sq : α → α) (N : Nat) :
    ∀ vs : List α,
      (foldUpdate (fieldAcc α sq) (State.mk0 (fieldAcc α sq) N) vs).mean
          = vs.sum / (vs.length : α) ∧
      (foldUpdate (fieldAcc α sq) (State.mk0 (fieldAcc α sq) N) vs).squared_differences
          = (vs.map (fun v => v ^ 2)).sum - vs.sum ^ 2 / (vs.length : α) := by
  intro vs
  induction vs using List.reverseRecOn with
  | nil => simp [foldUpdate, State.mk0, fieldAcc]
  | append_singleton xs v IH =>
    obtain ⟨hm, hq⟩ := IH
    have hiter : (foldUpdate (fieldAcc α sq) (State.mk0 (fieldAcc α sq) N) xs).iteration
        = xs.length := by
      rw [foldUpdate_iteration]
      simp [State.mk0]
    rw [foldUpdate_append, foldUpdate_cons, foldUpdate_nil]
    constructor
    · rw [update_fieldAcc_mean, hm, hiter]
      rcases List.eq_nil_or_concat xs with hnil | _
      · subst hnil
        norm_num
      · have hn : (xs.length : α) ≠ 0 := by
          have : xs.length ≠ 0 := by
            intro h0
            simp [List.length_eq_zero] at h0
            subst h0
            simp_all
          exact Nat.cast_ne_zero.mpr this
        have hn1 : ((xs.length : α) + 1) ≠ 0 := by
          intro habs
          have := Nat.cast_add_one_ne_zero (R := α) xs.length
          exact this habs
        simp only [List.sum_append, List.length_append, List.sum_cons, List.sum_nil,
          List.length_cons, List.length_nil]
        push_cast
        field_simp
        ring
    · rw [update_fieldAcc_m2, hm, hq, hiter]
      rcases List.eq_nil_or_concat xs with hnil | _
      · subst hnil
        norm_num
      · have hn : (xs.length : α) ≠ 0 := by
          have : xs.length ≠ 0 := by
            intro h0
            simp [List.length_eq_zero] at h0
            subst h0
            simp_all
          exact Nat.cast_ne_zero.mpr this
        have hn1 : ((xs.length : α) + 1) ≠ 0 := by
          intro habs
          have := Nat.cast_add_one_ne_zero (R := α) xs.length
          exact this habs
        simp only [List.sum_append, List.length_append, List.map_append, List.map_cons,
          List.map_nil, List.sum_cons, List.sum_nil, List.length_cons, List.length_nil]
        push_cast
        have hnn1 : (xs.length : α) * ((xs.length : α) + 1) ≠ 0 := mul_ne_zero hn hn1
        apply mul_right_cancel₀ hnn1
        field_simp
        ring

lemma sum_sq_dev_aux (α : Type) [Field α] [CharZero α] :
    ∀ (vs : List α) (c : α),
      (vs.map (fun v => (v - c) ^ 2)).sum
        = (vs.map (fun v => v ^ 2)).sum - 2 * c * vs.sum + (vs.length : α) * c ^ 2 := by
  intro vs c
  induction vs with
  | nil => simp
  | cons v vs IH =>
    simp only [List.map_cons, List.sum_cons, List.length_cons, IH]
    push_cast
    ring

/-- The single-pass accumulator value rewritten as the textbook sum of
squared deviations from the arithmetic mean. -/
lemma bessel_form (α : Type) [Field α] [CharZero α] (vs : List α) (h : vs.length ≠ 0) :
    (vs.map (fun v => v ^ 2)).sum - vs.sum ^ 2 / (vs.length : α)
      = (vs.map (fun v => (v - vs.sum / (vs.length : α)) ^ 2)).sum := by
  rw [sum_sq_dev_aux]
  have hn : (vs.length : α) ≠ 0 := Nat.cast_ne_zero.mpr h
  field_simp
  ring

lemma sizeSub1_eq (n : Nat) (h1 : 1 ≤ n) (h2 : n < 2 ^ 64) : sizeSub1 n = n - 1 := by
  have hp : (2 : Nat) ^ 64 = 18446744073709551616 := by norm_num
  unfold sizeSub1
  rw [hp] at h2 ⊢
  omega

lemma sizeSub1_zero : sizeSub1 0 = 2 ^ 64 - 1 := by
  decide

lemma sizeSub1_one : sizeSub1 1 = 0 := by
  decide

lemma report_fieldAcc [Field α] (sq : α → α) (st : State α) (nm : String) :
    st.report (fieldAcc α sq) nm
      = { name := nm, iterations := st.iterations, mean := st.mean,
          stddev := sq (st.squared_differences / ((sizeSub1 st.iterations : Nat) : α)) } := rfl

lemma State.mk0_iteration (ops : AccOps τ α) (n : Nat) : (State.mk0 ops n).iteration = 0 := rfl

lemma State.mk0_iterations (ops : AccOps τ α) (n : Nat) : (State.mk0 ops n).iterations = n := rfl

lemma State.report_name (st : State α) (ops : AccOps τ α) (nm : String) :
    (st.report ops nm).name = nm := rfl

lemma State.report_iterations (st : State α) (ops : AccOps τ α) (nm : String) :
    (st.report ops nm).iterations = st.iterations := rfl

lemma durToRat_update (sq : ℚ → ℚ) (st : State Dur) (d : ℚ) :
    durToRat (st.update (durAcc sq) d) = (durToRat st).update (fieldAcc ℚ sq) d := rfl

lemma durToRat_mk0 (sq : ℚ → ℚ) (n : Nat) :
    durToRat (State.mk0 (durAcc sq) n) = State.mk0 (fieldAcc ℚ sq) n := rfl

lemma durToRat_foldUpdate (sq : ℚ → ℚ) :
    ∀ (vs : List ℚ) (st : State Dur),
      durToRat (foldUpdate (durAcc sq) st vs) = foldUpdate (fieldAcc ℚ sq) (durToRat st) vs := by
  intro vs
  induction vs with
  | nil => intro st; rfl
  | cons v vs IH =>
    intro st
    rw [foldUpdate_cons, foldUpdate_cons, IH, durToRat_update]

/-- The magnitude view commutes with reporting: the report of a
wrapper-valued state carries, magnitude for magnitude, the report of the
corresponding scalar-valued state. -/
lemma report_durToRat (sq : ℚ → ℚ) (st : State Dur) (nm : String) :
    (durToRat st).report (fieldAcc ℚ sq) nm
      = { name := nm, iterations := st.iterations,
          mean := (st.report (durAcc sq) nm).mean.count,
          stddev := (st.report (durAcc sq) nm).stddev.count } := rfl

lemma registerRequest_default (b : Benchmarker α)
    (r : String × (State α → State α) × Option Nat) :
    (registerRequest b r).default_iterations = b.default_iterations := by
  rcases r with ⟨nm, f, c⟩
  cases c with
  | some k => rfl
  | none => rfl

lemma registerRequest_evaluators (b : Benchmarker α)
    (r : String × (State α → State α) × Option Nat) :
    (registerRequest b r).evaluators
      = b.evaluators
        ++ [{ name := r.1, function := r.2.1,
              iterations := r.2.2.getD b.default_iterations }] := by
  rcases r with ⟨nm, f, c⟩
  cases c with
  | some k => rfl
  | none => rfl

/-- A sequence of registration calls appends one entry per call, in call
order, resolving an omitted iteration count to the default of the harness. -/
lemma registerRequests_trace (α : Type) :
    ∀ (reqs : List (String × (State α → State α) × Option Nat)) (b : Benchmarker α),
      (reqs.foldl registerRequest b).default_iterations = b.default_iterations ∧
      (reqs.foldl registerRequest b).evaluators
        = b.evaluators ++ reqs.map (fun r =>
            { name := r.1, function := r.2.1,
              iterations := r.2.2.getD b.default_iterations }) := by
  intro reqs
  induction reqs with
  | nil => intro b; simp
  | cons r reqs IH =>
    intro b
    rw [List.foldl_cons]
    obtain ⟨h1, h2⟩ := IH (registerRequest b r)
    refine ⟨by rw [h1, registerRequest_default], ?_⟩
    rw [h2, registerRequest_evaluators]
    simp only [registerRequest_default, List.map_cons, List.append_assoc,
      List.singleton_append]

lemma registerBenchmarkDefault_default (b : Benchmarker α) (nm : String)
    (f : State α → State α) :
    (b.registerBenchmarkDefault nm f).default_iterations = b.default_iterations := rfl

/-- A sequence of registration calls through the overload without an
iteration count appends one entry per call, each holding the default count
of the harness. -/
lemma registerDefaults_trace (α : Type) :
    ∀ (regs : List (String × (State α → State α))) (b : Benchmarker α),
      (regs.foldl (fun b r => b.registerBenchmarkDefault r.1 r.2) b).evaluators
        = b.evaluators ++ regs.map (fun r =>
            { name := r.1, function := r.2, iterations := b.default_iterations }) := by
  intro regs
  induction regs with
  | nil => intro b; simp
  | cons r regs IH =>
    intro b
    rw [List.foldl_cons, IH]
    simp only [Benchmarker.registerBenchmarkDefault, List.map_cons, List.append_assoc,
      List.singleton_append]

/-- C2: each call of the statistics update with sample value v performs
exactly the Welford step of the specification pseudocode: it increments the
iteration count by one, sets delta = v minus the old mean, adds delta over
the new count to the mean, sets delta2 = v minus the new mean, adds
delta times delta2 to the sum of squared differences, and modifies no
other field of the State (in particular the target iteration count is
unchanged). -/
theorem claim2_update_is_welford_step (α : Type) [Field α] (sq : α → α)
    (st : State α) (v : α) :
    st.update (fieldAcc α sq) v = welfordStep st v ∧
    (st.update (fieldAcc α sq) v).iterations = st.iterations :=
  ⟨rfl, rfl⟩

/-- C9: every dereference of the active cursor yields a scoped timing guard;
guard number i captures the clock reading with index 2i at creation and, on
release, computes the elapsed duration as the difference between the next
clock reading and the stored one and feeds it into the statistics update
exactly once.  Hence the loop as a whole is the fold of the update over the
per-guard elapsed durations, it consumes two clock readings per guard, and
the number of updates performed, read off the final iteration counter,
equals the number of guards released. -/
theorem claim9_guard_feeds_update_once (τ α : Type) [Sub τ] (ops : AccOps τ α)
    (clock : Nat → τ) (n : Nat) :
    runLoop ops clock (State.mk0 ops n)
        = (foldUpdate ops (State.mk0 ops n) (elapsedList clock 0 (max n 1)), 2 * max n 1) ∧
    (runLoop ops clock (State.mk0 ops n)).1.iteration
        = (elapsedList clock 0 (max n 1)).length := by
  refine ⟨runLoop_trace ops clock n, ?_⟩
  rw [runLoop_trace ops clock n]
  rw [foldUpdate_iteration, State.mk0_iteration, elapsedList_length]
  simp

/-- C6 counterexample: with targetIterations = 0 the loop body is not
executed zero times; the update runs once and the iteration counter ends at
1, violating the claimed invariant currentIteration less or equal
targetIterations. -/
theorem claim6_counterexample :
    (runLoop (fieldAcc ℚ id) (fun k => (k : ℚ)) (State.mk0 (fieldAcc ℚ id) 0)).1.iteration = 1
      ∧ ¬ (1 : Nat) ≤ 0 := by
  constructor
  · rw [runLoop_trace]
    rw [foldUpdate_iteration, State.mk0_iteration, elapsedList_length]
    simp
  · decide

/-- C6 (amended: for every targetIterations value n that is at least 1):
driving the iteration protocol to completion through the compiled range-for
loop executes the loop body exactly n times, the iteration counter passes
through exactly the values 0 to n (so the invariant of staying at most the
target holds at every step), and the loop-finished test becomes true
exactly when the counter reaches the target. -/
theorem claim6_amended_protocol (τ α : Type) [Sub τ] (ops : AccOps τ α)
    (clock : Nat → τ) (n : Nat) (h1 : 1 ≤ n) :
    (runLoop ops clock (State.mk0 ops n)).1
        = foldUpdate ops (State.mk0 ops n) (elapsedList clock 0 n) ∧
    (elapsedList clock 0 n).length = n ∧
    (∀ i ≤ n, (foldUpdate ops (State.mk0 ops n) ((elapsedList clock 0 n).take i)).iteration = i) ∧
    (∀ i ≤ n,
      ((foldUpdate ops (State.mk0 ops n) ((elapsedList clock 0 n).take i)).done = true ↔ i = n)) := by
  have hmax : max n 1 = n := by omega
  have ht := runLoop_trace ops clock n
  rw [hmax] at ht
  refine ⟨by rw [ht], elapsedList_length clock n 0, ?_, ?_⟩
  · intro i hi
    rw [foldUpdate_iteration, State.mk0_iteration, List.length_take, elapsedList_length]
    omega
  · intro i hi
    rw [State.done_iff, foldUpdate_iterations, foldUpdate_iteration, State.mk0_iteration,
      State.mk0_iterations, List.length_take, elapsedList_length]
    omega

/-- Witness for the amended C6 at n = 1 with the identity clock. -/
theorem claim6_amended_witness :
    (1 : Nat) ≤ 1 ∧
    ((runLoop (fieldAcc ℚ id) (fun k => (k : ℚ)) (State.mk0 (fieldAcc ℚ id) 1)).1
        = foldUpdate (fieldAcc ℚ id) (State.mk0 (fieldAcc ℚ id) 1)
            (elapsedList (fun k => (k : ℚ)) 0 1) ∧
      (elapsedList (fun k => (k : ℚ)) 0 1).length = 1 ∧
      (∀ i ≤ 1, (foldUpdate (fieldAcc ℚ id) (State.mk0 (fieldAcc ℚ id) 1)
          ((elapsedList (fun k => (k : ℚ)) 0 1).take i)).iteration = i) ∧
      (∀ i ≤ 1,
        ((foldUpdate (fieldAcc ℚ id) (State.mk0 (fieldAcc ℚ id) 1)
            ((elapsedList (fun k => (k : ℚ)) 0 1).take i)).done = true ↔ i = 1))) :=
  ⟨by decide, claim6_amended_protocol ℚ ℚ (fieldAcc ℚ id) (fun k => (k : ℚ)) 1 (by decide)⟩

/-- C4, behavior of the code at the failing input: constructing a State with
targetIterations = 0 and driving it through the range-for loop executes the
loop body once, not zero times: the statistics update runs, the iteration
counter ends at 1 and the mean moves to the sampled duration (5 here, with
clock readings 0 and 5).  At reporting time the divisor iterations minus 1
wraps around to 2 to the 64 minus 1 with no degenerate-result special case
anywhere on the path. -/
theorem claim4_code_behavior :
    ((runLoop (fieldAcc ℚ id) (fun k => 5 * (k : ℚ)) (State.mk0 (fieldAcc ℚ id) 0)).1.iteration = 1
      ∧ (runLoop (fieldAcc ℚ id) (fun k => 5 * (k : ℚ)) (State.mk0 (fieldAcc ℚ id) 0)).1.mean = 5
      ∧ (runLoop (fieldAcc ℚ id) (fun k => 5 * (k : ℚ))
          (State.mk0 (fieldAcc ℚ id) 0)).1.squared_differences = 0)
      ∧ sizeSub1 0 = 2 ^ 64 - 1 := by
  have ht := runLoop_trace (fieldAcc ℚ id) (fun k => 5 * (k : ℚ)) 0
  rw [ht]
  refine ⟨⟨?_, ?_, ?_⟩, sizeSub1_zero⟩
  · rw [foldUpdate_iteration, State.mk0_iteration, elapsedList_length]
    simp
  · norm_num [foldUpdate, elapsedList, State.update, State.mk0, fieldAcc]
  · norm_num [foldUpdate, elapsedList, State.update, State.mk0, fieldAcc]

/-- C5, behavior of the code at the failing input: with targetIterations = 1
and a single sampled duration of 7 (clock readings 0 and 7), the state after
the loop holds iteration counter 1, mean equal to the single sample and a
zero sum of squared differences, and at reporting time the divisor
iterations minus 1 equals 0, so the code divides the accumulator by zero
with no special case; the reported mean half of the claim does hold. -/
theorem claim5_code_behavior :
    ((runLoop (fieldAcc ℚ id) (fun k => 7 * (k : ℚ)) (State.mk0 (fieldAcc ℚ id) 1)).1.iteration = 1
      ∧ (runLoop (fieldAcc ℚ id) (fun k => 7 * (k : ℚ)) (State.mk0 (fieldAcc ℚ id) 1)).1.mean = 7
      ∧ (runLoop (fieldAcc ℚ id) (fun k => 7 * (k : ℚ))
          (State.mk0 (fieldAcc ℚ id) 1)).1.squared_differences = 0)
      ∧ sizeSub1 1 = 0 := by
  have ht := runLoop_trace (fieldAcc ℚ id) (fun k => 7 * (k : ℚ)) 1
  rw [ht]
  refine ⟨⟨?_, ?_, ?_⟩, sizeSub1_one⟩
  · rw [foldUpdate_iteration, State.mk0_iteration, elapsedList_length]
    simp
  · norm_num [foldUpdate, elapsedList, State.update, State.mk0, fieldAcc]
  · norm_num [foldUpdate, elapsedList, State.update, State.mk0, fieldAcc]

/-- C1: for every sample count n at least 2 (and inside the size_t domain)
and every sequence of n elapsed durations fed through the per-iteration
update of a State built for n iterations, the mean held by the State at
reporting time is the arithmetic mean of the samples, and the reported
standard deviation is the square root of the Bessel-corrected sample
variance, the sum of the squared deviations from the mean divided by
n minus 1. -/
theorem claim1_mean_and_bessel_stddev (vs : List ℝ) (h2 : 2 ≤ vs.length)
    (hsize : vs.length < 2 ^ 64) :
    (foldUpdate (fieldAcc ℝ Real.sqrt) (State.mk0 (fieldAcc ℝ Real.sqrt) vs.length) vs).mean
        = vs.sum / (vs.length : ℝ) ∧
    ((foldUpdate (fieldAcc ℝ Real.sqrt) (State.mk0 (fieldAcc ℝ Real.sqrt) vs.length) vs).report
        (fieldAcc ℝ Real.sqrt) "bench").stddev
      = Real.sqrt ((vs.map (fun v => (v - vs.sum / (vs.length : ℝ)) ^ 2)).sum
          / ((vs.length : ℝ) - 1)) := by
  obtain ⟨hm, hq⟩ := welford_invariant ℝ Real.sqrt vs.length vs
  refine ⟨hm, ?_⟩
  rw [report_fieldAcc]
  dsimp only
  have hiters : (foldUpdate (fieldAcc ℝ Real.sqrt)
      (State.mk0 (fieldAcc ℝ Real.sqrt) vs.length) vs).iterations = vs.length := by
    rw [foldUpdate_iterations, State.mk0_iterations]
  rw [hq, hiters, sizeSub1_eq vs.length (by omega) hsize, bessel_form ℝ vs (by omega),
    Nat.cast_sub (by omega : 1 ≤ vs.length), Nat.cast_one]

/-- Witness for C1 at the concrete sample list [1, 3]. -/
theorem claim1_witness :
    ((2 ≤ ([1, 3] : List ℝ).length) ∧ ([1, 3] : List ℝ).length < 2 ^ 64) ∧
    ((foldUpdate (fieldAcc ℝ Real.sqrt) (State.mk0 (fieldAcc ℝ Real.sqrt) ([1, 3] : List ℝ).length)
        [1, 3]).mean = ([1, 3] : List ℝ).sum / (([1, 3] : List ℝ).length : ℝ) ∧
      ((foldUpdate (fieldAcc ℝ Real.sqrt) (State.mk0 (fieldAcc ℝ Real.sqrt) ([1, 3] : List ℝ).length)
          [1, 3]).report (fieldAcc ℝ Real.sqrt) "bench").stddev
        = Real.sqrt ((([1, 3] : List ℝ).map
            (fun v => (v - ([1, 3] : List ℝ).sum / (([1, 3] : List ℝ).length : ℝ)) ^ 2)).sum
            / ((([1, 3] : List ℝ).length : ℝ) - 1))) :=
  ⟨⟨by decide, by decide⟩, claim1_mean_and_bessel_stddev [1, 3] (by decide) (by decide)⟩

/-- C7: at reporting time the value handed to the Reporter as standard
deviation is the square root of the sum of squared differences divided by
n minus 1, where n is the number of samples the state accumulated, for any
state driven to completion (sample counter equal to the target, target at
least 1 and inside the size_t domain). -/
theorem claim7_reported_stddev_bessel (st : State ℝ) (nm : String)
    (hdriven : st.iteration = st.iterations) (h1 : 1 ≤ st.iterations)
    (hsize : st.iterations < 2 ^ 64) :
    (st.report (fieldAcc ℝ Real.sqrt) nm).stddev
      = Real.sqrt (st.squared_differences / ((st.iteration : ℝ) - 1)) := by
  rw [report_fieldAcc]
  dsimp only
  rw [hdriven, sizeSub1_eq st.iterations h1 hsize, Nat.cast_sub h1, Nat.cast_one]

/-- Witness for C7 at a concrete completed state with 2 samples. -/
theorem claim7_witness :
    ((State.mk 2 2 (5 : ℝ) 3).iteration = (State.mk 2 2 (5 : ℝ) 3).iterations ∧
      1 ≤ (State.mk 2 2 (5 : ℝ) 3).iterations ∧ (State.mk 2 2 (5 : ℝ) 3).iterations < 2 ^ 64) ∧
    ((State.mk 2 2 (5 : ℝ) 3).report (fieldAcc ℝ Real.sqrt) "b").stddev
      = Real.sqrt ((State.mk 2 2 (5 : ℝ) 3).squared_differences
          / (((State.mk 2 2 (5 : ℝ) 3).iteration : ℝ) - 1)) :=
  ⟨⟨rfl, by decide, by decide⟩,
    claim7_reported_stddev_bessel (State.mk 2 2 5 3) "b" rfl (by decide) (by decide)⟩

/-- C8: over the same clock (hence the same underlying sample magnitudes),
running the benchmark loop and reporting with the plain-scalar Accumulator
(native multiplication and square root) and with the duration-like wrapper
Accumulator (multiplication and square root resolved through the magnitude
accessor) produce reported mean and standard deviation of equal underlying
magnitude, and the same reported iteration count: the two resolution paths
are observationally equivalent. -/
theorem claim8_accumulator_paths_equivalent (sq : ℚ → ℚ) (clock : Nat → ℚ)
    (n : Nat) (nm : String) :
    (((runLoop (fieldAcc ℚ sq) clock (State.mk0 (fieldAcc ℚ sq) n)).1.report
          (fieldAcc ℚ sq) nm).mean
        = (((runLoop (durAcc sq) clock (State.mk0 (durAcc sq) n)).1.report
          (durAcc sq) nm).mean).count)
    ∧ (((runLoop (fieldAcc ℚ sq) clock (State.mk0 (fieldAcc ℚ sq) n)).1.report
          (fieldAcc ℚ sq) nm).stddev
        = (((runLoop (durAcc sq) clock (State.mk0 (durAcc sq) n)).1.report
          (durAcc sq) nm).stddev).count)
    ∧ ((runLoop (fieldAcc ℚ sq) clock (State.mk0 (fieldAcc ℚ sq) n)).1.report
          (fieldAcc ℚ sq) nm).iterations
        = ((runLoop (durAcc sq) clock (State.mk0 (durAcc sq) n)).1.report
          (durAcc sq) nm).iterations := by
  rw [runLoop_trace, runLoop_trace]
  dsimp only
  have hsim : foldUpdate (fieldAcc ℚ sq) (State.mk0 (fieldAcc ℚ sq) n)
        (elapsedList clock 0 (max n 1))
      = durToRat (foldUpdate (durAcc sq) (State.mk0 (durAcc sq) n)
        (elapsedList clock 0 (max n 1))) := by
    rw [durToRat_foldUpdate, durToRat_mk0]
  rw [hsim, report_durToRat]
  exact ⟨rfl, rfl, rfl⟩

/-- C3: after registering N benchmarks (each through one of the two
registration overloads) on a harness with default count d, the run-all
operation makes exactly N Reporter invocations, in registration order, each
carrying the registered name and the registered iteration count, with an
omitted count resolved to d.  The hypothesis states that benchmark
functions do not alter the const target count of their state. -/
theorem claim3_runall_reports_in_order (α τ : Type) (ops : AccOps τ α) (d : Nat)
    (reqs : List (String × (State α → State α) × Option Nat))
    (hpres : ∀ r ∈ reqs, PreservesIterations r.2.1) :
    (((reqs.foldl registerRequest (Benchmarker.new α d)).runBenchmarks ops).length = reqs.length)
    ∧ ((reqs.foldl registerRequest (Benchmarker.new α d)).runBenchmarks ops).map
        (fun rep => (rep.name, rep.iterations))
      = reqs.map (fun r => (r.1, r.2.2.getD d)) := by
  obtain ⟨hdef, hev⟩ := registerRequests_trace α reqs (Benchmarker.new α d)
  have hnew_ev : (Benchmarker.new α d).evaluators = [] := rfl
  have hnew_d : (Benchmarker.new α d).default_iterations = d := rfl
  rw [hnew_ev, hnew_d, List.nil_append] at hev
  unfold Benchmarker.runBenchmarks
  rw [hev]
  constructor
  · simp
  · rw [List.map_map, List.map_map]
    apply List.map_congr_left
    intro r hr
    simp only [Function.comp_apply]
    rw [State.report_name, State.report_iterations]
    rw [hpres r hr, State.mk0_iterations]

/-- Witness for C3: one benchmark registered without an explicit count on a
harness with default 10. -/
theorem claim3_witness :
    (∀ r ∈ [(("a" : String), fun (st : State ℚ) => st, (none : Option Nat))],
        PreservesIterations r.2.1) ∧
    ((([(("a" : String), fun (st : State ℚ) => st, (none : Option Nat))].foldl registerRequest
          (Benchmarker.new ℚ 10)).runBenchmarks (fieldAcc ℚ id)).length
        = [(("a" : String), fun (st : State ℚ) => st, (none : Option Nat))].length
      ∧ (([(("a" : String), fun (st : State ℚ) => st, (none : Option Nat))].foldl registerRequest
            (Benchmarker.new ℚ 10)).runBenchmarks (fieldAcc ℚ id)).map
              (fun rep => (rep.name, rep.iterations))
          = [(("a" : String), fun (st : State ℚ) => st, (none : Option Nat))].map
              (fun r => (r.1, r.2.2.getD 10))) := by
  have hp : ∀ r ∈ [(("a" : String), fun (st : State ℚ) => st, (none : Option Nat))],
      PreservesIterations r.2.1 := by
    intro r hr
    rw [List.mem_singleton] at hr
    subst hr
    intro st
    rfl
  exact ⟨hp, claim3_runall_reports_in_order ℚ ℚ (fieldAcc ℚ id) 10 _ hp⟩

/-- C10: a harness constructed without specifying a default iteration count
has default 1000, and every benchmark registered on it through the overload
without an explicit count is stored with, and reported with, an iteration
count of 1000.  The hypothesis states that benchmark functions do not alter
the const target count of their state. -/
theorem claim10_harness_default_is_1000 (α τ : Type) (ops : AccOps τ α)
    (regs : List (String × (State α → State α)))
    (hpres : ∀ r ∈ regs, PreservesIterations r.2) :
    (∀ e ∈ (regs.foldl (fun b r => b.registerBenchmarkDefault r.1 r.2)
        (Benchmarker.newDefault α)).evaluators, e.iterations = 1000)
    ∧ ∀ rep ∈ (regs.foldl (fun b r => b.registerBenchmarkDefault r.1 r.2)
        (Benchmarker.newDefault α)).runBenchmarks ops, rep.iterations = 1000 := by
  have hev := registerDefaults_trace α regs (Benchmarker.newDefault α)
  have h0 : (Benchmarker.newDefault α).evaluators = [] := rfl
  have hd : (Benchmarker.newDefault α).default_iterations = 1000 := rfl
  rw [h0, hd, List.nil_append] at hev
  constructor
  · intro e he
    rw [hev] at he
    obtain ⟨r, hr, rfl⟩ := List.mem_map.mp he
    rfl
  · intro rep hrep
    unfold Benchmarker.runBenchmarks at hrep
    rw [hev] at hrep
    obtain ⟨e, he, rfl⟩ := List.mem_map.mp hrep
    obtain ⟨r, hr, rfl⟩ := List.mem_map.mp he
    rw [State.report_iterations]
    dsimp only
    rw [hpres r hr, State.mk0_iterations]

/-- Witness for C10: one benchmark registered without an explicit count on a
default-constructed harness. -/
theorem claim10_witness :
    (∀ r ∈ [(("a" : String), fun (st : State ℚ) => st)], PreservesIterations r.2) ∧
    ((∀ e ∈ ([(("a" : String), fun (st : State ℚ) => st)].foldl
        (fun b r => b.registerBenchmarkDefault r.1 r.2)
        (Benchmarker.newDefault ℚ)).evaluators, e.iterations = 1000)
      ∧ ∀ rep ∈ ([(("a" : String), fun (st : State ℚ) => st)].foldl
        (fun b r => b.registerBenchmarkDefault r.1 r.2)
        (Benchmarker.newDefault ℚ)).runBenchmarks (fieldAcc ℚ id), rep.iterations = 1000) := by
  have hp : ∀ r ∈ [(("a" : String), fun (st : State ℚ) => st)], PreservesIterations r.2 := by
    intro r hr
    rw [List.mem_singleton] at hr
    subst hr
    intro st
    rfl
  exact ⟨hp, claim10_harness_default_is_1000 ℚ ℚ (fieldAcc ℚ id) _ hp⟩

end EMB
